import Mathlib

/-!
Shallow embedding of the gsession library (session.go, memory_store.go,
file_store.go).  Time instants and durations are modelled as `Int`; a Go
`time.Time` comparison `a.After(b)` becomes `a > b`.  Go maps
`map[string]T` become association lists with unique-key update semantics.
The session-data value type `interface` is modelled by a type parameter
`V`.  Each operation that in Go consults `time.Now()` takes the current
instant `now` as an explicit argument.
-/

set_option autoImplicit false

universe u

variable {V : Type u}

/-- Go map read `m[k]`: value of the first (unique) binding of key `k`. -/
def alistGet : List (String × V) → String → Option V
  | [], _ => none
  | (k, v) :: t, q => if k = q then some v else alistGet t q

/-- Go map write `m[k] = v`: replace the binding of `k`, or append it. -/
def alistSet : List (String × V) → String → V → List (String × V)
  | [], q, x => [(q, x)]
  | (k, v) :: t, q, x => if k = q then (q, x) :: t else (k, v) :: alistSet t q x

/-- Go map `delete(m, k)`: remove every binding of key `k`. -/
def alistDel : List (String × V) → String → List (String × V)
  | [], _ => []
  | (k, v) :: t, q => if k = q then alistDel t q else (k, v) :: alistDel t q

/-- Session struct of session.go: expiry instant, last-active timestamp,
token and the data mapping. -/
structure Session (V : Type u) where
  Expiry : Int
  Tstamp : Int
  Token  : String
  Data   : List (String × V)
deriving DecidableEq, Repr

/-- Error values visible in the sources: the three sentinel errors of
session.go plus the two engine errors of the badger store that
file_store.go inspects. -/
inductive GErr where
  | nilContext
  | keyInvalid
  | noRecord
  | badgerKeyNotFound
  | badgerEmptyKey
deriving DecidableEq, Repr

/-- Session validation constants of session.go. -/
inductive Sesval where
  | sesError
  | sesExpired
  | sesInvalid
  | sesIdle
  | sesPass
deriving DecidableEq, Repr

/-- MemoryStore struct: the shelf mapping identifiers to sessions.  The
reader/writer lock only serialises accesses and has no sequential
effect, so it is not represented. -/
structure MemoryStore (V : Type u) where
  shelf : List (String × Session V)
deriving DecidableEq, Repr

namespace MemoryStore

/-- Create of memory_store.go: store a fresh record with
`Expiry = now + exp`, `Tstamp = now`, empty token and empty data map,
overwriting any record at `id`.  The Go method returns a nil error
unconditionally. -/
def Create (s : MemoryStore V) (id : String) (exp now : Int) : MemoryStore V :=
  ⟨alistSet s.shelf id ⟨now + exp, now, "", []⟩⟩

/-- Read of memory_store.go: return the record found on the shelf (the Go
code returns the address of a struct copy `scp` of the stored value), or
ErrSessionNoRecord when absent. -/
def Read (s : MemoryStore V) (id : String) : Except GErr (Session V) :=
  match alistGet s.shelf id with
  | some ses => .ok ses
  | none => .error .noRecord

/-- Update of memory_store.go: apply `fn` to the stored record in place;
ErrSessionNoRecord when absent.  Returns the Go error together with the
shelf after the call. -/
def Update (s : MemoryStore V) (id : String) (fn : Session V → Session V) :
    Except GErr Unit × MemoryStore V :=
  match alistGet s.shelf id with
  | some ses => (.ok (), ⟨alistSet s.shelf id (fn ses)⟩)
  | none => (.error .noRecord, s)

/-- Delete of memory_store.go: remove the record; never an error. -/
def Delete (s : MemoryStore V) (id : String) : MemoryStore V :=
  ⟨alistDel s.shelf id⟩

end MemoryStore

/-- Gob-encoded bytes of a Session, as written by encGob of
file_store.go.  The serialization is modelled as lossless. -/
structure GobBytes (V : Type u) where
  val : Session V
deriving DecidableEq, Repr

/-- Encode a session to bytes (encGob of file_store.go). -/
def encGob (ses : Session V) : GobBytes V := ⟨ses⟩

/-- Decode bytes back to a session (decGob of file_store.go). -/
def decGob (b : GobBytes V) : Session V := b.val

/-- FileStore struct: the badger database, modelled as a mapping from
byte-string keys (identifiers) to encoded values. -/
structure FileStore (V : Type u) where
  shelf : List (String × GobBytes V)
deriving DecidableEq, Repr

/-- Engine read `txn.Get(key)`: the item if present, otherwise the
engine's ErrKeyNotFound signal. -/
def txnGet (db : List (String × GobBytes V)) (id : String) :
    Except GErr (GobBytes V) :=
  match alistGet db id with
  | some item => .ok item
  | none => .error .badgerKeyNotFound

/-- Engine write `txn.Set(key, bts)`. -/
def txnSet (db : List (String × GobBytes V)) (id : String) (b : GobBytes V) :
    List (String × GobBytes V) :=
  alistSet db id b

namespace FileStore

/-- Create of file_store.go: encode a fresh record (same fields as the
memory-store Create) and set it under the identifier in one engine
transaction. -/
def Create (s : FileStore V) (id : String) (exp now : Int) : FileStore V :=
  ⟨txnSet s.shelf id (encGob ⟨now + exp, now, "", []⟩)⟩

/-- Read of file_store.go: get and decode the item; afterwards the engine
signals ErrKeyNotFound and ErrEmptyKey are translated to
ErrSessionNoRecord.  Other errors pass through verbatim. -/
def Read (s : FileStore V) (id : String) : Except GErr (Session V) :=
  let r : Except GErr (Session V) :=
    match txnGet s.shelf id with
    | .ok item => .ok (decGob item)
    | .error e => .error e
  match r with
  | .error e =>
      if e = .badgerKeyNotFound ∨ e = .badgerEmptyKey then .error .noRecord
      else .error e
  | .ok ses => .ok ses

/-- Update of file_store.go: get, decode, apply `fn`, encode and set in
one engine transaction.  NOTE the source translates no engine error
here: a failed `txn.Get` is returned verbatim, although the method's
own comment promises ErrSessionNoRecord for a missing session. -/
def Update (s : FileStore V) (id : String) (fn : Session V → Session V) :
    Except GErr Unit × FileStore V :=
  match txnGet s.shelf id with
  | .error e => (.error e, s)
  | .ok item =>
      let ses := fn (decGob item)
      (.ok (), ⟨txnSet s.shelf id (encGob ses)⟩)

/-- Delete of file_store.go: one engine delete transaction. -/
def Delete (s : FileStore V) (id : String) : FileStore V :=
  ⟨alistDel s.shelf id⟩

end FileStore

/-- Manager type of session.go: the cookie name and the two configured
durations.  The injected Store is the memory backend, passed to each
operation as explicit state. -/
structure Manager where
  name   : String
  expiry : Int
  idle   : Int
deriving DecidableEq, Repr

/-- HTTP cookie as built by Manager.putCookie: the Go struct literal
sets Name, Value, Expires and Path, every other field keeps its zero
value (false for the boolean HttpOnly flag). -/
structure Cookie where
  Name     : String
  Value    : String
  Expires  : Int
  Path     : String
  HttpOnly : Bool
deriving DecidableEq, Repr

/-- Request-scoped state each Manager operation sees: the optional
session identifier placed in the request context by Use, and the
optional inbound cookie value (none when r.Cookie fails). -/
def Ctx : Type := Option String

namespace Manager

/-- putCookie of session.go: cookie named after the manager, carrying
the identifier, expiring at `now + expiry`, scoped to path "/"; the
HttpOnly field is never assigned, so it stays at the zero value false. -/
def putCookie (m : Manager) (id : String) (now : Int) : Cookie :=
  { Name := m.name, Value := id, Expires := now + m.expiry,
    Path := "/", HttpOnly := false }

/-- sesCtx of session.go: the identifier from the request context, or
ErrSessionNilContext when none was stored. -/
def sesCtx (ctx : Option String) : Except GErr String :=
  match ctx with
  | none => .error .nilContext
  | some id => .ok id

/-- Classification step of Manager.validate on the result of the store
Read: ErrSessionNoRecord maps to sesInvalid, any other error is
propagated; otherwise the expiry check precedes the idle check. -/
def classify (r : Except GErr (Session V)) (idle now : Int) :
    Except GErr Sesval :=
  match r with
  | .error e => if e = .noRecord then .ok .sesInvalid else .error e
  | .ok ses =>
      if now > ses.Expiry then .ok .sesExpired
      else if now > ses.Tstamp + idle then .ok .sesIdle
      else .ok .sesPass

/-- validate of session.go over the memory backend. -/
def validate (m : Manager) (s : MemoryStore V) (id : String) (now : Int) :
    Except GErr Sesval :=
  classify (s.Read id) m.idle now

/-- reset of session.go: read the old record, create a fresh record
under the fresh identifier, optionally clear the token and re-touch
Tstamp on the local copy, then overwrite the fresh record wholesale
with that copy (the Go mutator runs `*ses = *osd`). -/
def reset (m : Manager) (s : MemoryStore V) (id fresh : String) (t : Bool)
    (now : Int) : Except GErr (String × MemoryStore V) :=
  match s.Read id with
  | .error e => .error e
  | .ok osd =>
      let s1 := s.Create fresh m.expiry now
      let osd1 := if t then { osd with Token := "", Tstamp := now } else osd
      match s1.Update fresh (fun _ => osd1) with
      | (.error e, _) => .error e
      | (.ok _, s2) => .ok (fresh, s2)

/-- register of session.go: returns the identifier for the request, the
store after the call and the list of cookies put on the response.  The
`fresh` argument stands for the value of `uuid.New().String()` on the
path (each path draws at most one fresh identifier). -/
def register (m : Manager) (jar : Option String) (fresh : String)
    (now : Int) (s : MemoryStore V) :
    Except GErr (String × MemoryStore V × List Cookie) :=
  let createNew : Except GErr (String × MemoryStore V × List Cookie) :=
    .ok (fresh, s.Create fresh m.expiry now, [m.putCookie fresh now])
  match jar with
  | none => createNew
  | some id =>
      if id = "" then createNew
      else
        match m.validate s id now with
        | .error e => .error e
        | .ok val =>
            if val = .sesPass then
              match s.Update id (fun ses => { ses with Tstamp := now }) with
              | (.error e, _) => .error e
              | (.ok _, s1) => .ok (id, s1, [])
            else if val = .sesIdle then
              match m.reset s id fresh true now with
              | .error e => .error e
              | .ok (id1, s1) => .ok (id1, s1, [m.putCookie id1 now])
            else
              .ok (fresh, s.Create fresh m.expiry now, [m.putCookie fresh now])

/-- Set of session.go: resolve the context identifier, then store
`ses.Data[k] = v` through Update.  The Go signature restricts `v` to
string; the embedding keeps the data value type `V` of the mapping. -/
def Set (m : Manager) (ctx : Option String) (k : String) (v : V)
    (s : MemoryStore V) : Except GErr Unit × MemoryStore V :=
  match sesCtx ctx with
  | .error e => (.error e, s)
  | .ok id => s.Update id (fun ses => { ses with Data := alistSet ses.Data k v })

/-- Get of session.go: resolve the context identifier, Read the record,
look the key up in its data mapping; a missing key yields
ErrSessionKeyInvalid.  The store after the call is returned alongside. -/
def Get (m : Manager) (ctx : Option String) (k : String)
    (s : MemoryStore V) : Except GErr V × MemoryStore V :=
  match sesCtx ctx with
  | .error e => (.error e, s)
  | .ok id =>
      match s.Read id with
      | .error e => (.error e, s)
      | .ok ses =>
          match alistGet ses.Data k with
          | some dat => (.ok dat, s)
          | none => (.error .keyInvalid, s)

/-- Delete of session.go (data-key removal): resolve the context
identifier, then run `delete(ses.Data, k)` through Update. -/
def Delete (m : Manager) (ctx : Option String) (k : String)
    (s : MemoryStore V) : Except GErr Unit × MemoryStore V :=
  match sesCtx ctx with
  | .error e => (.error e, s)
  | .ok id => s.Update id (fun ses => { ses with Data := alistDel ses.Data k })

/-- Token of session.go: with a nil argument, Read the record and return
its token; with a string pointer, set the token through Update. -/
def Token (m : Manager) (ctx : Option String) (t : Option String)
    (s : MemoryStore V) : Except GErr String × MemoryStore V :=
  match sesCtx ctx with
  | .error e => (.error e, s)
  | .ok id =>
      match t with
      | none =>
          match s.Read id with
          | .error e => (.error e, s)
          | .ok ses => (.ok ses.Token, s)
      | some tok =>
          match s.Update id (fun ses => { ses with Token := tok }) with
          | (.error e, s1) => (.error e, s1)
          | (.ok _, s1) => (.ok tok, s1)

end Manager

/-!
Reference-level model of the memory store for the sharing behaviour of
Read.  A Go `map[string]interface` value inside a Session struct is a
reference; copying the struct (`scp := *ses` in MemoryStore.Read)
copies the reference, not the mapping it points to.  Here the mapping
contents live in a heap indexed by `Nat` references and the struct
holds the reference. -/

/-- Session struct as laid out in memory: scalar fields by value, the
data mapping as a reference into the heap. -/
structure PSession where
  Expiry : Int
  Tstamp : Int
  Token  : String
  Data   : Nat
deriving DecidableEq, Repr

/-- Memory store with explicit heap: the shelf maps identifiers to
session structs, the heap maps data references to map contents. -/
structure PMemStore (V : Type u) where
  shelf : List (String × PSession)
  heap  : List (Nat × List (String × V))
deriving DecidableEq, Repr

/-- Heap read: contents of the mapping a reference points to. -/
def heapGet (h : List (Nat × List (String × V))) (r : Nat) :
    List (String × V) :=
  match h with
  | [] => []
  | (q, m) :: t => if q = r then m else heapGet t r

/-- Heap write: replace the mapping a reference points to. -/
def heapSet (h : List (Nat × List (String × V))) (r : Nat)
    (m : List (String × V)) : List (Nat × List (String × V)) :=
  match h with
  | [] => [(r, m)]
  | (q, m0) :: t => if q = r then (r, m) :: t else (q, m0) :: heapSet t r m

/-- Read of memory_store.go over the reference-level model: return a
copy `scp` of the stored struct.  The copy duplicates the scalar
fields and the data reference; it does not duplicate the mapping the
reference points to. -/
def PMemStore.Read (s : PMemStore V) (id : String) : Except GErr PSession :=
  match alistGet s.shelf id with
  | some ses => .ok ses
  | none => .error .noRecord

/-- Caller-side mutation `ses.Data[k] = v` performed on a record the
caller obtained: a write to the heap cell the record's data reference
designates.  The shelf is not touched. -/
def callerSetData (s : PMemStore V) (ses : PSession) (k : String) (v : V) :
    PMemStore V :=
  { s with heap := heapSet s.heap ses.Data (alistSet (heapGet s.heap ses.Data) k v) }

/-- Caller-side mutation `delete(ses.Data, k)` on a record the caller
obtained, likewise a heap write through the shared reference. -/
def callerDelData (s : PMemStore V) (ses : PSession) (k : String) :
    PMemStore V :=
  { s with heap := heapSet s.heap ses.Data (alistDel (heapGet s.heap ses.Data) k) }

/-- Observable data mapping of the record stored under `id`: the shelf
struct's reference dereferenced through the heap. -/
def storedData (s : PMemStore V) (id : String) : Option (List (String × V)) :=
  (alistGet s.shelf id).map (fun ses => heapGet s.heap ses.Data)

/-- Concrete manager used to evaluate the theorems: cookie name "g",
expiry duration 100, idle timeout 50. -/
def mgrA : Manager := ⟨"g", 100, 50⟩

/-- Concrete stored session: expires at 1000, last active at -100,
token "t", one data key. -/
def sesOld : Session String := ⟨1000, -100, "t", [("k", "w")]⟩

/-- Concrete memory store holding `sesOld` under identifier "a". -/
def stA : MemoryStore String := ⟨[("a", sesOld)]⟩

/-- Concrete reference-level store: identifier "a" holds a struct whose
data reference 0 points to an empty mapping. -/
def pstA : PMemStore String := ⟨[("a", ⟨5, 0, "", 0⟩)], [(0, [])]⟩

/-!
Association-map lemmas used by the theorems below.
-/

theorem alistGet_set_self (m : List (String × V)) (k : String) (v : V) :
    alistGet (alistSet m k v) k = some v := by
  induction m with
  | nil => simp [alistSet, alistGet]
  | cons p t ih =>
      obtain ⟨k0, v0⟩ := p
      by_cases h : k0 = k
      · simp [alistSet, alistGet, h]
      · simp [alistSet, alistGet, h, ih]

theorem alistGet_set_other (m : List (String × V)) (k q : String) (v : V)
    (h : k ≠ q) : alistGet (alistSet m k v) q = alistGet m q := by
  induction m with
  | nil => simp [alistSet, alistGet, h]
  | cons p t ih =>
      obtain ⟨k0, v0⟩ := p
      by_cases h0 : k0 = k
      · subst h0
        simp [alistSet, alistGet, h]
      · simp [alistSet, alistGet, h0, ih]

theorem alistGet_del_self (m : List (String × V)) (k : String) :
    alistGet (alistDel m k) k = none := by
  induction m with
  | nil => simp [alistDel, alistGet]
  | cons p t ih =>
      obtain ⟨k0, v0⟩ := p
      by_cases h : k0 = k
      · simp [alistDel, h, ih]
      · simp [alistDel, alistGet, h, ih]

theorem alistGet_del_other (m : List (String × V)) (k q : String)
    (h : k ≠ q) : alistGet (alistDel m k) q = alistGet m q := by
  induction m with
  | nil => simp [alistDel]
  | cons p t ih =>
      obtain ⟨k0, v0⟩ := p
      by_cases h0 : k0 = k
      · subst h0
        simp [alistDel, alistGet, h, ih]
      · simp [alistDel, alistGet, h0, ih]

theorem heapGet_set_self (h : List (Nat × List (String × V))) (r : Nat)
    (m : List (String × V)) : heapGet (heapSet h r m) r = m := by
  induction h with
  | nil => simp [heapSet, heapGet]
  | cons p t ih =>
      obtain ⟨q, m0⟩ := p
      by_cases hq : q = r
      · simp [heapSet, heapGet, hq]
      · simp [heapSet, heapGet, hq, ih]

/-!
Classification lemmas for Manager.validate.
-/

theorem classify_ok_invalid_iff (r : Except GErr (Session V)) (idle now : Int) :
    Manager.classify r idle now = .ok .sesInvalid ↔ r = .error .noRecord := by
  cases r with
  | error e =>
      by_cases he : e = GErr.noRecord
      · subst he; simp [Manager.classify]
      · simp [Manager.classify, he]
  | ok ses =>
      simp only [Manager.classify]
      split_ifs <;> simp

theorem classify_ok_expired_iff (r : Except GErr (Session V)) (idle now : Int) :
    Manager.classify r idle now = .ok .sesExpired ↔
      ∃ ses, r = .ok ses ∧ now > ses.Expiry := by
  cases r with
  | error e =>
      by_cases he : e = GErr.noRecord
      · subst he; simp [Manager.classify]
      · simp [Manager.classify, he]
  | ok ses =>
      simp only [Manager.classify]
      by_cases h1 : now > ses.Expiry
      · simp only [if_pos h1]
        constructor
        · intro _; exact ⟨ses, rfl, h1⟩
        · intro _; trivial
      · by_cases h2 : now > ses.Tstamp + idle <;> simp [h1, h2]

theorem classify_ok_idle_iff (r : Except GErr (Session V)) (idle now : Int) :
    Manager.classify r idle now = .ok .sesIdle ↔
      ∃ ses, r = .ok ses ∧ ¬ now > ses.Expiry ∧ now > ses.Tstamp + idle := by
  cases r with
  | error e =>
      by_cases he : e = GErr.noRecord
      · subst he; simp [Manager.classify]
      · simp [Manager.classify, he]
  | ok ses =>
      simp only [Manager.classify]
      by_cases h1 : now > ses.Expiry
      · simp [h1]
      · by_cases h2 : now > ses.Tstamp + idle
        · simp only [if_neg h1, if_pos h2]
          constructor
          · intro _; exact ⟨ses, rfl, h1, h2⟩
          · intro _; trivial
        · simp [h1, h2]

theorem classify_ok_pass_iff (r : Except GErr (Session V)) (idle now : Int) :
    Manager.classify r idle now = .ok .sesPass ↔
      ∃ ses, r = .ok ses ∧ ¬ now > ses.Expiry ∧ ¬ now > ses.Tstamp + idle := by
  cases r with
  | error e =>
      by_cases he : e = GErr.noRecord
      · subst he; simp [Manager.classify]
      · simp [Manager.classify, he]
  | ok ses =>
      simp only [Manager.classify]
      by_cases h1 : now > ses.Expiry
      · simp [h1]
      · by_cases h2 : now > ses.Tstamp + idle
        · simp [h1, h2]
        · simp only [if_neg h1, if_neg h2]
          constructor
          · intro _; exact ⟨ses, rfl, h1, h2⟩
          · intro _; trivial

theorem classify_error_iff (r : Except GErr (Session V)) (idle now : Int)
    (e : GErr) (he : e ≠ GErr.noRecord) :
    Manager.classify r idle now = .error e ↔ r = .error e := by
  cases r with
  | error e0 =>
      by_cases h0 : e0 = GErr.noRecord
      · subst h0
        simp only [Manager.classify, if_pos rfl]
        constructor
        · intro h; cases h
        · intro h; injection h with h; exact absurd h.symm he
      · simp [Manager.classify, h0]
  | ok ses =>
      simp only [Manager.classify]
      split_ifs <;> simp

theorem read_ok_iff (s : MemoryStore V) (id : String) (ses : Session V) :
    s.Read id = .ok ses ↔ alistGet s.shelf id = some ses := by
  unfold MemoryStore.Read
  cases h : alistGet s.shelf id <;> simp

theorem read_error_iff (s : MemoryStore V) (id : String) (e : GErr) :
    s.Read id = .error e ↔ alistGet s.shelf id = none ∧ e = GErr.noRecord := by
  unfold MemoryStore.Read
  cases h : alistGet s.shelf id <;> simp [eq_comm]

/-!
Path lemmas for Manager.register.
-/

theorem validate_pass (m : Manager) (s : MemoryStore V) (id : String)
    (now : Int) (ses : Session V) (hget : alistGet s.shelf id = some ses)
    (hexp : ¬ now > ses.Expiry) (hidl : ¬ now > ses.Tstamp + m.idle) :
    m.validate s id now = .ok .sesPass := by
  simp [Manager.validate, MemoryStore.Read, hget, Manager.classify, hexp, hidl]

theorem validate_idle (m : Manager) (s : MemoryStore V) (id : String)
    (now : Int) (ses : Session V) (hget : alistGet s.shelf id = some ses)
    (hexp : ¬ now > ses.Expiry) (hidl : now > ses.Tstamp + m.idle) :
    m.validate s id now = .ok .sesIdle := by
  simp [Manager.validate, MemoryStore.Read, hget, Manager.classify, hexp, hidl]

theorem register_pass_eq (m : Manager) (s : MemoryStore V) (id0 fresh : String)
    (now : Int) (ses : Session V) (h0 : id0 ≠ "")
    (hget : alistGet s.shelf id0 = some ses)
    (hexp : ¬ now > ses.Expiry) (hidl : ¬ now > ses.Tstamp + m.idle) :
    m.register (some id0) fresh now s =
      .ok (id0, ⟨alistSet s.shelf id0 ⟨ses.Expiry, now, ses.Token, ses.Data⟩⟩, []) := by
  have hval := validate_pass m s id0 now ses hget hexp hidl
  simp [Manager.register, h0, hval, MemoryStore.Update, hget]

theorem register_idle_eq (m : Manager) (s : MemoryStore V) (id0 fresh : String)
    (now : Int) (ses : Session V) (h0 : id0 ≠ "")
    (hget : alistGet s.shelf id0 = some ses)
    (hexp : ¬ now > ses.Expiry) (hidl : now > ses.Tstamp + m.idle) :
    m.register (some id0) fresh now s =
      .ok (fresh,
        ⟨alistSet (alistSet s.shelf fresh ⟨now + m.expiry, now, "", []⟩) fresh
          ⟨ses.Expiry, now, "", ses.Data⟩⟩,
        [⟨m.name, fresh, now + m.expiry, "/", false⟩]) := by
  have hval := validate_idle m s id0 now ses hget hexp hidl
  simp [Manager.register, h0, hval, Manager.reset, MemoryStore.Read, hget,
    MemoryStore.Create, MemoryStore.Update, alistGet_set_self, Manager.putCookie]

/-!
Claim theorems.
-/

/-- Claim C1, corrected: on the Idle transition the Manager does renew
the record — new identifier, data copied forward, token cleared, Tstamp
re-touched — but the record persisted under the new identifier keeps
the OLD record's expiry: the `now + expiry` value written by Create is
immediately overwritten when the mutator copies the old record
wholesale. -/
theorem C1_idle_renewal (m : Manager) (s : MemoryStore V) (id0 fresh : String)
    (now : Int) (ses : Session V) (h0 : id0 ≠ "")
    (hget : alistGet s.shelf id0 = some ses)
    (hexp : ¬ now > ses.Expiry) (hidl : now > ses.Tstamp + m.idle) :
    m.register (some id0) fresh now s =
      .ok (fresh,
        ⟨alistSet (alistSet s.shelf fresh ⟨now + m.expiry, now, "", []⟩) fresh
          ⟨ses.Expiry, now, "", ses.Data⟩⟩,
        [⟨m.name, fresh, now + m.expiry, "/", false⟩])
    ∧ alistGet (alistSet (alistSet s.shelf fresh ⟨now + m.expiry, now, "", []⟩) fresh
        ⟨ses.Expiry, now, "", ses.Data⟩) fresh = some ⟨ses.Expiry, now, "", ses.Data⟩ :=
  ⟨register_idle_eq m s id0 fresh now ses h0 hget hexp hidl,
   alistGet_set_self _ _ _⟩

/-- Witness for C1 at a concrete idle record. -/
theorem C1_witness :
    Manager.register (V := String) mgrA (some "a") "b" 10 stA =
      .ok ("b",
        ⟨alistSet (alistSet stA.shelf "b" ⟨10 + mgrA.expiry, 10, "", []⟩) "b"
          ⟨sesOld.Expiry, 10, "", sesOld.Data⟩⟩,
        [⟨mgrA.name, "b", 10 + mgrA.expiry, "/", false⟩])
    ∧ alistGet (alistSet (alistSet stA.shelf "b" ⟨10 + mgrA.expiry, 10, "", []⟩) "b"
        ⟨sesOld.Expiry, 10, "", sesOld.Data⟩) "b" =
        some ⟨sesOld.Expiry, 10, "", sesOld.Data⟩ :=
  C1_idle_renewal mgrA stA "a" "b" 10 sesOld (by decide) (by decide) (by decide)
    (by decide)

/-- Counterexample for C1 as stated: at `now = 10` with configured
expiry 100 the renewed record should carry expiry 110, yet the record
persisted under the new identifier "b" carries the old expiry 1000. -/
theorem C1_counterexample :
    Manager.register (V := String) mgrA (some "a") "b" 10 stA =
      .ok ("b", ⟨[("a", sesOld), ("b", ⟨1000, 10, "", [("k", "w")]⟩)]⟩,
        [⟨"g", "b", 110, "/", false⟩])
    ∧ (1000 : Int) ≠ 10 + mgrA.expiry :=
  ⟨rfl, by decide⟩

/-- Claim C2, code bug in FileStore.Update: on an absent identifier the
memory backend yields ErrSessionNoRecord from Read and from Update
(without invoking the mutator), and the file backend translates the
engine's key-not-found signal in Read — but FileStore.Update returns
the raw engine error badger.ErrKeyNotFound untranslated, contradicting
its own doc comment, so the two backends disagree on Update. -/
theorem C2_file_update_untranslated :
    (∀ f : Session String → Session String,
        FileStore.Update (V := String) ⟨[]⟩ "x" f =
          (.error .badgerKeyNotFound, ⟨[]⟩))
    ∧ GErr.badgerKeyNotFound ≠ GErr.noRecord
    ∧ FileStore.Read (V := String) ⟨[]⟩ "x" = .error .noRecord
    ∧ MemoryStore.Read (V := String) ⟨[]⟩ "x" = .error .noRecord
    ∧ (∀ f : Session String → Session String,
        MemoryStore.Update (V := String) ⟨[]⟩ "x" f = (.error .noRecord, ⟨[]⟩)) :=
  ⟨fun _ => rfl, by decide, rfl, rfl, fun _ => rfl⟩

/-- Claim C3, corrected: MemoryStore.Read hands out a struct copy, so
the shelf entry itself (identifier set and scalar fields) is beyond the
caller's reach, but the data mapping is shared by reference — a caller
insert or delete through the returned record rewrites the stored
record's observable data. -/
theorem C3_shallow_copy (s : PMemStore V) (id : String) (ses : PSession)
    (h : PMemStore.Read s id = .ok ses) :
    alistGet s.shelf id = some ses
    ∧ (∀ (k : String) (v : V), (callerSetData s ses k v).shelf = s.shelf
        ∧ storedData (callerSetData s ses k v) id =
            some (alistSet (heapGet s.heap ses.Data) k v))
    ∧ (∀ k : String, (callerDelData s ses k).shelf = s.shelf
        ∧ storedData (callerDelData s ses k) id =
            some (alistDel (heapGet s.heap ses.Data) k)) := by
  have hget : alistGet s.shelf id = some ses := by
    unfold PMemStore.Read at h
    cases h0 : alistGet s.shelf id <;> rw [h0] at h
    · cases h
    · injection h with h; rw [h]
  refine ⟨hget, fun k v => ⟨rfl, ?_⟩, fun k => ⟨rfl, ?_⟩⟩
  · simp [storedData, callerSetData, hget, heapGet_set_self]
  · simp [storedData, callerDelData, hget, heapGet_set_self]

/-- Witness for C3: concrete caller-side insert through the record
returned by Read lands in the stored record's data. -/
theorem C3_witness :
    (callerSetData pstA ⟨5, 0, "", 0⟩ "q" "w").shelf = pstA.shelf
    ∧ storedData (callerSetData pstA ⟨5, 0, "", 0⟩ "q" "w") "a" =
        some (alistSet (heapGet pstA.heap (⟨5, 0, "", (0 : Nat)⟩ : PSession).Data) "q" "w") :=
  (C3_shallow_copy pstA "a" ⟨5, 0, "", 0⟩ rfl).2.1 "q" "w"

/-- Counterexample for C3 as stated: after Read returns the record, a
caller insert into its data mapping changes the stored record, so the
stored record is not left completely unchanged. -/
theorem C3_counterexample :
    PMemStore.Read pstA "a" = .ok ⟨5, 0, "", 0⟩
    ∧ storedData (callerSetData pstA ⟨5, 0, "", 0⟩ "k" "v") "a" = some [("k", "v")]
    ∧ storedData pstA "a" = some []
    ∧ some [("k", "v")] ≠ (some [] : Option (List (String × String))) :=
  ⟨rfl, rfl, rfl, by decide⟩

/-- Claim C4, corrected: after the Idle transition the old identifier
is NOT discarded — reset never deletes it, so the old record stays on
the shelf and a Read of the old identifier still succeeds (it remains
until the expiry sweep or an explicit delete removes it). -/
theorem C4_old_identifier_remains (m : Manager) (s : MemoryStore V)
    (id0 fresh : String) (now : Int) (ses : Session V) (h0 : id0 ≠ "")
    (hget : alistGet s.shelf id0 = some ses)
    (hexp : ¬ now > ses.Expiry) (hidl : now > ses.Tstamp + m.idle)
    (hne : fresh ≠ id0) :
    m.register (some id0) fresh now s =
      .ok (fresh,
        ⟨alistSet (alistSet s.shelf fresh ⟨now + m.expiry, now, "", []⟩) fresh
          ⟨ses.Expiry, now, "", ses.Data⟩⟩,
        [⟨m.name, fresh, now + m.expiry, "/", false⟩])
    ∧ MemoryStore.Read
        ⟨alistSet (alistSet s.shelf fresh ⟨now + m.expiry, now, "", []⟩) fresh
          ⟨ses.Expiry, now, "", ses.Data⟩⟩ id0 = .ok ses := by
  refine ⟨register_idle_eq m s id0 fresh now ses h0 hget hexp hidl, ?_⟩
  have hkeep : alistGet (alistSet (alistSet s.shelf fresh ⟨now + m.expiry, now, "", []⟩)
      fresh ⟨ses.Expiry, now, "", ses.Data⟩) id0 = some ses := by
    rw [alistGet_set_other _ _ _ _ hne, alistGet_set_other _ _ _ _ hne, hget]
  simp [MemoryStore.Read, hkeep]

/-- Witness for C4 at a concrete idle record. -/
theorem C4_witness :
    Manager.register (V := String) mgrA (some "a") "b" 10 stA =
      .ok ("b",
        ⟨alistSet (alistSet stA.shelf "b" ⟨10 + mgrA.expiry, 10, "", []⟩) "b"
          ⟨sesOld.Expiry, 10, "", sesOld.Data⟩⟩,
        [⟨mgrA.name, "b", 10 + mgrA.expiry, "/", false⟩])
    ∧ MemoryStore.Read
        ⟨alistSet (alistSet stA.shelf "b" ⟨10 + mgrA.expiry, 10, "", []⟩) "b"
          ⟨sesOld.Expiry, 10, "", sesOld.Data⟩⟩ "a" = .ok sesOld :=
  C4_old_identifier_remains mgrA stA "a" "b" 10 sesOld (by decide) (by decide)
    (by decide) (by decide) (by decide)

/-- Counterexample for C4 as stated: after the renewal under identifier
"b", a Read of the old identifier "a" returns the old record rather
than ErrSessionNoRecord. -/
theorem C4_counterexample :
    Manager.register (V := String) mgrA (some "a") "b" 10 stA =
      .ok ("b", ⟨[("a", sesOld), ("b", ⟨1000, 10, "", [("k", "w")]⟩)]⟩,
        [⟨"g", "b", 110, "/", false⟩])
    ∧ MemoryStore.Read (V := String)
        ⟨[("a", sesOld), ("b", ⟨1000, 10, "", [("k", "w")]⟩)]⟩ "a" = .ok sesOld
    ∧ (Except.ok sesOld : Except GErr (Session String)) ≠ .error .noRecord :=
  ⟨rfl, rfl, fun h => Except.noConfusion h⟩

/-- Claim C5, corrected: whenever register issues a new identifier it
puts exactly one cookie carrying the new identifier, expiring at
`now + expiry`, with path "/" — but the HttpOnly flag is NOT set: the
Go struct literal in putCookie never assigns it, so it stays false and
the cookie remains reachable from scripting contexts. -/
theorem C5_new_id_cookie (m : Manager) (jar : Option String) (fresh : String)
    (now : Int) (s : MemoryStore V) (id : String) (s1 : MemoryStore V)
    (cks : List Cookie)
    (h : m.register jar fresh now s = .ok (id, s1, cks)) :
    cks = [] ∨ cks = [⟨m.name, id, now + m.expiry, "/", false⟩] := by
  cases jar with
  | none =>
      simp only [Manager.register, Except.ok.injEq, Prod.mk.injEq] at h
      obtain ⟨h1, _, h3⟩ := h
      subst h1
      right
      rw [← h3]
      rfl
  | some id0 =>
      simp only [Manager.register] at h
      by_cases h0 : id0 = ""
      · rw [if_pos h0] at h
        simp only [Except.ok.injEq, Prod.mk.injEq] at h
        obtain ⟨h1, _, h3⟩ := h
        subst h1
        right
        rw [← h3]
        rfl
      · rw [if_neg h0] at h
        split at h
        · cases h
        · split at h
          · split at h
            · cases h
            · simp only [Except.ok.injEq, Prod.mk.injEq] at h
              obtain ⟨_, _, h3⟩ := h
              left
              exact h3.symm
          · split at h
            · split at h
              · cases h
              · simp only [Except.ok.injEq, Prod.mk.injEq] at h
                obtain ⟨h1, _, h3⟩ := h
                subst h1
                right
                rw [← h3]
                rfl
            · simp only [Except.ok.injEq, Prod.mk.injEq] at h
              obtain ⟨h1, _, h3⟩ := h
              subst h1
              right
              rw [← h3]
              rfl

/-- Witness for C5: the no-identifier path issues one cookie with path
"/", expiry now + configured duration, and HttpOnly false. -/
theorem C5_witness :
    ([⟨"g", "x", 107, "/", false⟩] : List Cookie) = []
    ∨ ([⟨"g", "x", 107, "/", false⟩] : List Cookie) =
        [⟨mgrA.name, "x", 7 + mgrA.expiry, "/", false⟩] :=
  C5_new_id_cookie mgrA none "x" 7 (⟨[]⟩ : MemoryStore String) "x"
    ⟨[("x", ⟨107, 7, "", []⟩)]⟩ [⟨"g", "x", 107, "/", false⟩] rfl

/-- Counterexample for C5 as stated: at a concrete new-identifier
issuance the emitted cookie has HttpOnly false, not true. -/
theorem C5_counterexample :
    Manager.register (V := String) mgrA none "x" 7 ⟨[]⟩ =
      .ok ("x", ⟨[("x", ⟨107, 7, "", []⟩)]⟩, [⟨"g", "x", 107, "/", false⟩])
    ∧ (Manager.putCookie mgrA "x" 7).HttpOnly = false
    ∧ false ≠ true :=
  ⟨rfl, rfl, by decide⟩

/-- Claim C6, confirmed: validate classifies exactly as prescribed —
Invalid iff the store has no record, Expired iff a record exists and
now is past its expiry, Idle iff a record exists, is not expired and
now is past lastActive plus the idle timeout, Valid otherwise; any
store error other than ErrSessionNoRecord is propagated verbatim. -/
theorem C6_validate_classification (m : Manager) (s : MemoryStore V)
    (id : String) (now : Int) :
    (m.validate s id now = .ok .sesInvalid ↔ alistGet s.shelf id = none)
    ∧ (m.validate s id now = .ok .sesExpired ↔
        ∃ ses, alistGet s.shelf id = some ses ∧ now > ses.Expiry)
    ∧ (m.validate s id now = .ok .sesIdle ↔
        ∃ ses, alistGet s.shelf id = some ses ∧ ¬ now > ses.Expiry
          ∧ now > ses.Tstamp + m.idle)
    ∧ (m.validate s id now = .ok .sesPass ↔
        ∃ ses, alistGet s.shelf id = some ses ∧ ¬ now > ses.Expiry
          ∧ ¬ now > ses.Tstamp + m.idle)
    ∧ (∀ (r : Except GErr (Session V)) (e : GErr), e ≠ GErr.noRecord →
        (Manager.classify r m.idle now = .error e ↔ r = .error e)) := by
  refine ⟨?_, ?_, ?_, ?_, fun r e he => classify_error_iff r m.idle now e he⟩
  · rw [Manager.validate, classify_ok_invalid_iff]
    unfold MemoryStore.Read
    cases h : alistGet s.shelf id <;> simp
  · rw [Manager.validate, classify_ok_expired_iff]
    constructor
    · rintro ⟨ses, hok, hgt⟩
      exact ⟨ses, (read_ok_iff s id ses).mp hok, hgt⟩
    · rintro ⟨ses, hsome, hgt⟩
      exact ⟨ses, (read_ok_iff s id ses).mpr hsome, hgt⟩
  · rw [Manager.validate, classify_ok_idle_iff]
    constructor
    · rintro ⟨ses, hok, hgt⟩
      exact ⟨ses, (read_ok_iff s id ses).mp hok, hgt⟩
    · rintro ⟨ses, hsome, hgt⟩
      exact ⟨ses, (read_ok_iff s id ses).mpr hsome, hgt⟩
  · rw [Manager.validate, classify_ok_pass_iff]
    constructor
    · rintro ⟨ses, hok, hgt⟩
      exact ⟨ses, (read_ok_iff s id ses).mp hok, hgt⟩
    · rintro ⟨ses, hsome, hgt⟩
      exact ⟨ses, (read_ok_iff s id ses).mpr hsome, hgt⟩

/-- Witness for C6: the concrete store classifies identifier "a" as
Idle at instant 10. -/
theorem C6_witness :
    Manager.validate (V := String) mgrA stA "a" 10 = .ok .sesIdle :=
  ((C6_validate_classification mgrA stA "a" 10).2.2.1).mpr
    ⟨sesOld, by decide, by decide, by decide⟩

/-- Claim C7, confirmed: on either backend, Create installs a record
with expiry now + ttl, lastActive now, empty token and empty data
mapping, overwriting whatever was stored, and an immediate Read
returns exactly that fresh record. -/
theorem C7_create_then_read (s : MemoryStore V) (fs : FileStore V)
    (id : String) (exp now : Int) :
    (s.Create id exp now).Read id = .ok ⟨now + exp, now, "", []⟩
    ∧ (fs.Create id exp now).Read id = .ok ⟨now + exp, now, "", []⟩ := by
  constructor
  · simp [MemoryStore.Create, MemoryStore.Read, alistGet_set_self]
  · simp [FileStore.Create, FileStore.Read, txnGet, txnSet, alistGet_set_self,
      encGob, decGob]

/-- Claim C8, confirmed: on a Valid classification, register touches
only Tstamp of the record, in place under the same identifier — the
expiry, token and data are carried over unchanged, every other
identifier's record is untouched, and no cookie is emitted. -/
theorem C8_valid_touch (m : Manager) (s : MemoryStore V) (id0 fresh : String)
    (now : Int) (ses : Session V) (h0 : id0 ≠ "")
    (hget : alistGet s.shelf id0 = some ses)
    (hexp : ¬ now > ses.Expiry) (hidl : ¬ now > ses.Tstamp + m.idle) :
    m.register (some id0) fresh now s =
      .ok (id0, ⟨alistSet s.shelf id0 ⟨ses.Expiry, now, ses.Token, ses.Data⟩⟩, [])
    ∧ alistGet (alistSet s.shelf id0 ⟨ses.Expiry, now, ses.Token, ses.Data⟩) id0 =
        some ⟨ses.Expiry, now, ses.Token, ses.Data⟩
    ∧ ∀ j, j ≠ id0 →
        alistGet (alistSet s.shelf id0 ⟨ses.Expiry, now, ses.Token, ses.Data⟩) j =
          alistGet s.shelf j :=
  ⟨register_pass_eq m s id0 fresh now ses h0 hget hexp hidl,
   alistGet_set_self _ _ _,
   fun _ hj => alistGet_set_other _ _ _ _ (Ne.symm hj)⟩

/-- Witness for C8 at a concrete valid record (instant -80). -/
theorem C8_witness :
    Manager.register (V := String) mgrA (some "a") "b" (-80) stA =
      .ok ("a", ⟨alistSet stA.shelf "a"
        ⟨sesOld.Expiry, -80, sesOld.Token, sesOld.Data⟩⟩, []) :=
  (C8_valid_touch mgrA stA "a" "b" (-80) sesOld (by decide) (by decide)
    (by decide) (by decide)).1

/-- Claim C9, confirmed: for a live identifier, Set followed by a store
Read yields the record with the key bound to the value; after the
Manager Delete of that key, Get on it yields ErrSessionKeyInvalid
while Get on any other key returns what it returned before the
delete. -/
theorem C9_data_roundtrip (m : Manager) (s : MemoryStore V) (id k : String)
    (v : V) (ses : Session V) (hget : alistGet s.shelf id = some ses) :
    MemoryStore.Read (m.Set (some id) k v s).2 id =
      .ok ⟨ses.Expiry, ses.Tstamp, ses.Token, alistSet ses.Data k v⟩
    ∧ (m.Get (some id) k
        (m.Delete (some id) k (m.Set (some id) k v s).2).2).1 =
        .error .keyInvalid
    ∧ ∀ q, q ≠ k →
        (m.Get (some id) q
          (m.Delete (some id) k (m.Set (some id) k v s).2).2).1 =
        (m.Get (some id) q (m.Set (some id) k v s).2).1 := by
  have hset : (m.Set (some id) k v s).2 =
      ⟨alistSet s.shelf id ⟨ses.Expiry, ses.Tstamp, ses.Token, alistSet ses.Data k v⟩⟩ := by
    simp [Manager.Set, Manager.sesCtx, MemoryStore.Update, hget]
  have hread1 : MemoryStore.Read (m.Set (some id) k v s).2 id =
      .ok ⟨ses.Expiry, ses.Tstamp, ses.Token, alistSet ses.Data k v⟩ := by
    rw [hset]
    simp [MemoryStore.Read, alistGet_set_self]
  have hget1 : alistGet (m.Set (some id) k v s).2.shelf id =
      some ⟨ses.Expiry, ses.Tstamp, ses.Token, alistSet ses.Data k v⟩ := by
    rw [hset]
    exact alistGet_set_self _ _ _
  have hdel : (m.Delete (some id) k (m.Set (some id) k v s).2).2 =
      ⟨alistSet (m.Set (some id) k v s).2.shelf id
        ⟨ses.Expiry, ses.Tstamp, ses.Token, alistDel (alistSet ses.Data k v) k⟩⟩ := by
    simp [Manager.Delete, Manager.sesCtx, MemoryStore.Update, hget1]
  have hread2 : MemoryStore.Read (m.Delete (some id) k (m.Set (some id) k v s).2).2 id =
      .ok ⟨ses.Expiry, ses.Tstamp, ses.Token, alistDel (alistSet ses.Data k v) k⟩ := by
    rw [hdel]
    simp [MemoryStore.Read, alistGet_set_self]
  refine ⟨hread1, ?_, ?_⟩
  · simp [Manager.Get, Manager.sesCtx, hread2, alistGet_del_self]
  · intro q hq
    simp only [Manager.Get, Manager.sesCtx, hread1, hread2]
    rw [alistGet_del_other _ _ _ (Ne.symm hq)]
    cases alistGet (alistSet ses.Data k v) q <;> rfl

/-- Witness for C9 at a concrete live record. -/
theorem C9_witness :
    MemoryStore.Read (Manager.Set (V := String) mgrA (some "a") "n" "z" stA).2 "a" =
      .ok ⟨sesOld.Expiry, sesOld.Tstamp, sesOld.Token, alistSet sesOld.Data "n" "z"⟩
    ∧ (Manager.Get mgrA (some "a") "n"
        (Manager.Delete mgrA (some "a") "n"
          (Manager.Set (V := String) mgrA (some "a") "n" "z" stA).2).2).1 =
        .error .keyInvalid :=
  ⟨(C9_data_roundtrip mgrA stA "a" "n" "z" sesOld (by decide)).1,
   (C9_data_roundtrip mgrA stA "a" "n" "z" sesOld (by decide)).2.1⟩

/-- Claim C10, confirmed: Manager.Get for any key and Manager.Token
with a nil argument leave the store exactly as it was — in particular
Tstamp is not advanced; only the transition step and the mutating
operations change records. -/
theorem C10_get_token_pure (m : Manager) (ctx : Option String) (k : String)
    (s : MemoryStore V) :
    (m.Get ctx k s).2 = s ∧ (m.Token ctx none s).2 = s := by
  constructor
  · cases ctx with
    | none => rfl
    | some id =>
        simp only [Manager.Get, Manager.sesCtx]
        cases h : MemoryStore.Read s id with
        | error e => simp
        | ok ses => cases hk : alistGet ses.Data k <;> simp [hk]
  · cases ctx with
    | none => rfl
    | some id =>
        simp only [Manager.Token, Manager.sesCtx]
        cases h : MemoryStore.Read s id with
        | error e => simp
        | ok ses => simp
